import Mathlib

/-!
Verification of the update-decision logic of `electron-inline-updater`
(`src/lib/inlineUpdater.ts`): configuration validation, the release feed
scan, semantic-version comparison, and the check-cycle state machine.

The stateful TypeScript class `InlineUpdaterClass` is embedded as pure
functions over an explicit `UpdaterState`; the GitHub feed call, the
Electron dialog responses and the packaged/platform flags are passed in as
explicit inputs.  JavaScript machine details (string `includes`/`endsWith`,
truthiness of `""`/`null`/`undefined`/`0`, the `ms` duration parser and the
`semver` parser/comparator used by the code) are embedded over `List Char`,
`Nat` and `Int`.
-/

namespace InlineUpdater

/-! ## JavaScript string primitives -/

/-- Predicate `leadsWith pat cs`: `pat` occurs at the start of `cs`
(JavaScript `String.startsWith`). -/
def leadsWith : List Char → List Char → Bool
  | [], _ => true
  | _ :: _, [] => false
  | p :: ps, c :: cs => p = c && leadsWith ps cs

/-- Predicate `containsSeq pat cs`: `pat` occurs contiguously somewhere in `cs`
(JavaScript `String.includes`). -/
def containsSeq (pat : List Char) : List Char → Bool
  | [] => leadsWith pat []
  | c :: cs => leadsWith pat (c :: cs) || containsSeq pat cs

/-- Predicate `trailsWith pat cs`: `pat` occurs at the end of `cs`
(JavaScript `String.endsWith`). -/
def trailsWith (pat cs : List Char) : Bool :=
  leadsWith pat.reverse cs.reverse

/-- Split a character list on a separator character, like
JavaScript `String.split` with a single-character separator. -/
def splitOnChar (sep : Char) : List Char → List (List Char)
  | [] => [[]]
  | c :: cs =>
    if c = sep then [] :: splitOnChar sep cs
    else
      match splitOnChar sep cs with
      | t :: ts => (c :: t) :: ts
      | [] => [[c]]

/-- Trim leading and trailing whitespace (JavaScript `String.trim`,
restricted to ASCII whitespace). -/
def trimChars (cs : List Char) : List Char :=
  ((cs.dropWhile Char.isWhitespace).reverse.dropWhile Char.isWhitespace).reverse

/-- Decimal value of a digit run. -/
def digitsToNat (cs : List Char) : Nat :=
  cs.foldl (fun a c => 10 * a + (c.toNat - 48)) 0

/-- The regex test `/^\d+/.test s` used on `updateInterval`:
the string starts with at least one ASCII digit. -/
def startsWithDigit (s : String) : Bool :=
  match s.data with
  | c :: _ => c.isDigit
  | [] => false

/-! ## The `ms` duration parser

Embedding of the `ms` npm package (v2) used by `validateInput`:
`/^(-?(?:\d+)?\.?\d+) *(milliseconds?|msecs?|ms|seconds?|secs?|s|minutes?|
mins?|m|hours?|hrs?|h|days?|d|weeks?|w|years?|yrs?|y)?$/i` applied to
strings of length at most 100, multiplying the decimal number by the unit
factor in milliseconds.  The decimal value is kept exactly as a pair
`num / den` (`den` a power of ten) instead of a double; the assertion
`ms(x) >= 300000` compares by cross-multiplication. -/

/-- An exact decimal duration in milliseconds: the value is `num / den`. -/
structure MsValue where
  num : Int
  den : Nat
deriving DecidableEq, Repr

/-- The duration as a rational number of milliseconds. -/
def MsValue.toRat (v : MsValue) : ℚ := (v.num : ℚ) / (v.den : ℚ)

/-- Millisecond factor of a (lower-cased) unit word; `none` when the unit
suffix is not one of the alternatives of the `ms` regex. -/
def msUnitFactor (u : List Char) : Option Nat :=
  let l : String := ⟨u.map Char.toLower⟩
  if l = "years" ∨ l = "year" ∨ l = "yrs" ∨ l = "yr" ∨ l = "y" then some 31557600000
  else if l = "weeks" ∨ l = "week" ∨ l = "w" then some 604800000
  else if l = "days" ∨ l = "day" ∨ l = "d" then some 86400000
  else if l = "hours" ∨ l = "hour" ∨ l = "hrs" ∨ l = "hr" ∨ l = "h" then some 3600000
  else if l = "minutes" ∨ l = "minute" ∨ l = "mins" ∨ l = "min" ∨ l = "m" then some 60000
  else if l = "seconds" ∨ l = "second" ∨ l = "secs" ∨ l = "sec" ∨ l = "s" then some 1000
  else if l = "milliseconds" ∨ l = "millisecond" ∨ l = "msecs" ∨ l = "msec" ∨ l = "ms" ∨ l = "" then some 1
  else none

/-- Embedding of `ms(str)`: parse a human-friendly duration string to milliseconds;
`none` models the JavaScript `undefined` result. -/
def msParse (s : String) : Option MsValue :=
  if s.data.length > 100 then none
  else
    let cs := s.data
    let negAndRest : Bool × List Char :=
      match cs with
      | '-' :: r => (true, r)
      | l => (false, l)
    let neg := negAndRest.1
    let cs1 := negAndRest.2
    let ip := cs1.takeWhile Char.isDigit
    let r1 := cs1.dropWhile Char.isDigit
    let parsedNum : Option (Nat × Nat × List Char) :=
      match r1 with
      | '.' :: r2 =>
        let fp := r2.takeWhile Char.isDigit
        let r3 := r2.dropWhile Char.isDigit
        if fp = [] then none
        else some (digitsToNat ip * 10 ^ fp.length + digitsToNat fp, 10 ^ fp.length, r3)
      | _ => if ip = [] then none else some (digitsToNat ip, 1, r1)
    match parsedNum with
    | none => none
    | some (n, den, rest) =>
      let unitChars := rest.dropWhile (fun c => c = ' ')
      match msUnitFactor unitChars with
      | none => none
      | some f =>
        some ⟨(if neg then -1 else 1) * ((n * f : Nat) : Int), den⟩

/-- The assertion condition `ms(updateInterval) >= 5 * 60 * 1000`;
`undefined >= 300000` is `false` in JavaScript, hence `none ↦ false`. -/
def msGe5Minutes (o : Option MsValue) : Bool :=
  match o with
  | none => false
  | some v => (300000 : Int) * (v.den : Int) ≤ v.num

/-! ## The `semver` parser and comparator

Embedding of the strict-mode parts of the `semver` npm package used by the
code: `semver.valid`, `semver.gte`.  Strict grammar (the `FULL` regex):
optional leading `v`, then `major.minor.patch` with numeric identifiers
without leading zeros and at most `Number.MAX_SAFE_INTEGER`, an optional
`-`-prefixed dot-separated prerelease (numeric or alphanumeric
identifiers), and an optional `+`-prefixed build suffix.  The input is
trimmed and must be at most 256 characters. -/

/-- A prerelease identifier after the mapping done by the `SemVer`
constructor: all-digit identifiers whose value is below
`Number.MAX_SAFE_INTEGER` become numbers, all others stay strings. -/
inductive PreId
  | num (n : Nat)
  | str (s : List Char)
deriving DecidableEq, Repr

/-- A parsed semantic version (build metadata kept but never compared). -/
structure SemVer where
  major : Nat
  minor : Nat
  patch : Nat
  pre : List PreId
  build : List (List Char)
deriving DecidableEq, Repr

/-- The JavaScript `Number.MAX_SAFE_INTEGER`. -/
def maxSafeInteger : Nat := 9007199254740991

/-- Characters allowed in prerelease/build identifiers: `[0-9a-zA-Z-]`. -/
def isIdChar (c : Char) : Bool := c.isDigit || c.isAlpha || c = '-'

/-- Parse one of `major`/`minor`/`patch`: `0|[1-9]\d*`, rejected above
`Number.MAX_SAFE_INTEGER` (the constructor throws there). -/
def parseMainNum (cs : List Char) : Option Nat :=
  if cs = [] then none
  else if !cs.all Char.isDigit then none
  else if cs.head? = some '0' && cs.length > 1 then none
  else
    let n := digitsToNat cs
    if n > maxSafeInteger then none else some n

/-- Parse a prerelease identifier:
`0|[1-9]\d*|\d*[a-zA-Z-][0-9a-zA-Z-]*`, mapped to a number when all-digit
and below `Number.MAX_SAFE_INTEGER`. -/
def parsePreId (cs : List Char) : Option PreId :=
  if cs = [] then none
  else if !cs.all isIdChar then none
  else if cs.all Char.isDigit then
    if cs.head? = some '0' && cs.length > 1 then none
    else
      let n := digitsToNat cs
      some (if n < maxSafeInteger then .num n else .str cs)
  else some (.str cs)

/-- Parse a build identifier: `[0-9a-zA-Z-]+`. -/
def parseBuildId (cs : List Char) : Option (List Char) :=
  if cs = [] then none
  else if cs.all isIdChar then some cs else none

/-- Parse `major.minor.patch`. -/
def parseMainTriple (cs : List Char) : Option (Nat × Nat × Nat) :=
  match splitOnChar '.' cs with
  | [a, b, c] => do
    let x ← parseMainNum a
    let y ← parseMainNum b
    let z ← parseMainNum c
    pure (x, y, z)
  | _ => none

/-- Parse `major.minor.patch` optionally followed by `-prerelease`
(the first `-` separates; later `-` belong to prerelease identifiers). -/
def parseMainPre (cs : List Char) (build : List (List Char)) : Option SemVer :=
  let mainCs := cs.takeWhile (fun c => c ≠ '-')
  let rest := cs.dropWhile (fun c => c ≠ '-')
  match parseMainTriple mainCs with
  | none => none
  | some (x, y, z) =>
    match rest with
    | [] => some ⟨x, y, z, [], build⟩
    | _ :: preCs =>
      match (splitOnChar '.' preCs).mapM parsePreId with
      | none => none
      | some pre => some ⟨x, y, z, pre, build⟩

/-- Embedding of `new SemVer(s)` / `semver.parse`: `none` models a parse failure
(`semver.valid` returning `null`). -/
def parseSemVer (s : String) : Option SemVer :=
  if s.data.length > 256 then none
  else
    let cs := trimChars s.data
    let cs1 :=
      match cs with
      | 'v' :: rest => rest
      | l => l
    match splitOnChar '+' cs1 with
    | [mainPre] => parseMainPre mainPre []
    | [mainPre, buildCs] =>
      match (splitOnChar '.' buildCs).mapM parseBuildId with
      | none => none
      | some b => parseMainPre mainPre b
    | _ => none

/-- Truthiness of `semver.valid s`. -/
def semverValid (s : String) : Bool := (parseSemVer s).isSome

/-- JavaScript `<` on strings: lexicographic comparison by code units. -/
def lexLt : List Char → List Char → Bool
  | [], [] => false
  | [], _ :: _ => true
  | _ :: _, [] => false
  | c :: cs, d :: ds => c < d || (c = d && lexLt cs ds)

/-- Three-way comparison of two `Nat`s in the style of
`compareIdentifiers` on numbers. -/
def cmpNum (a b : Nat) : Ordering :=
  if a = b then .eq else if a < b then .lt else .gt

/-- Fuel-driven floor of the base-2 logarithm. -/
def log2Aux : Nat → Nat → Nat
  | 0, _ => 0
  | fuel + 1, n => if n ≤ 1 then 0 else 1 + log2Aux fuel (n / 2)

/-- Floor of the base-2 logarithm of a positive integer. -/
def natLog2 (n : Nat) : Nat := log2Aux n n

/-- Value of the IEEE double nearest to the nonnegative integer `n`
(round half to even, 53-bit significand): this is what JavaScript's unary
`+` produces on an all-digit string.  Integers below `2^53` are exact;
`none` is `Infinity`, i.e. a rounded value at or beyond `2^1024`
(detected as `⌊log2 v⌋ ≥ 1024`, avoiding the huge power). -/
def roundToDouble (n : Nat) : Option Nat :=
  if n < 2 ^ 53 then some n
  else
    let e := natLog2 n - 52
    let q := n / 2 ^ e
    let r := n % 2 ^ e
    let half := 2 ^ (e - 1)
    let q2 := if half < r ∨ (r = half ∧ q % 2 = 1) then q + 1 else q
    let v := q2 * 2 ^ e
    if 1024 ≤ natLog2 v then none else some v

/-- Three-way comparison of two coerced doubles (`none` = `Infinity`;
`Infinity === Infinity` holds in JavaScript). -/
def cmpDouble : Option Nat → Option Nat → Ordering
  | none, none => .eq
  | none, some _ => .gt
  | some _, none => .lt
  | some x, some y => cmpNum x y

/-- The `/^[0-9]+$/` test of `semver/internal/identifiers.js`; a number
always passes it (its decimal rendering is all digits). -/
def PreId.numericTest : PreId → Bool
  | .num _ => true
  | .str s => !s.isEmpty && s.all Char.isDigit

/-- An identifier kept as an all-digit string by the `SemVer` constructor
(its value is at least `Number.MAX_SAFE_INTEGER`): the inputs on which
`compareIdentifiers`' unary-`+` coercion can lose precision. -/
def PreId.isDigitStr : PreId → Bool
  | .num _ => false
  | .str s => !s.isEmpty && s.all Char.isDigit

/-- The double produced by unary `+` on an identifier: numbers are
already doubles (always below `2^53`, hence exact), all-digit strings are
rounded to the nearest double. -/
def PreId.coerced : PreId → Option Nat
  | .num n => some n
  | .str s => roundToDouble (digitsToNat s)

/-- Embedding of `compareIdentifiers` from
`semver/internal/identifiers.js`: when both identifiers pass the numeric
test they are coerced with unary `+` and compared as doubles (so distinct
all-digit strings at or above `2^53` can collide); a numeric identifier
sorts below a non-numeric one; two non-numeric identifiers compare as
JavaScript strings.  The final wildcard arm is unreachable: an identifier
failing the numeric test is always a `.str`. -/
def compareIdentifiers (x y : PreId) : Ordering :=
  if x.numericTest && y.numericTest then cmpDouble x.coerced y.coerced
  else if x.numericTest && !y.numericTest then .lt
  else if !x.numericTest && y.numericTest then .gt
  else
    match x, y with
    | .str a, .str b => if a = b then .eq else if lexLt a b then .lt else .gt
    | _, _ => .eq

/-- The identifier loop of `SemVer.comparePre`: positions past the end of
the shorter list count as `undefined`, and a longer prerelease list wins. -/
def comparePreLists : List PreId → List PreId → Ordering
  | [], [] => .eq
  | [], _ :: _ => .lt
  | _ :: _, [] => .gt
  | a :: as, b :: bs => if a = b then comparePreLists as bs else compareIdentifiers a b

/-- Embedding of `SemVer.comparePre`: a version with a prerelease sorts below the same
version without one; otherwise the identifier loop decides. -/
def comparePre : List PreId → List PreId → Ordering
  | [], [] => .eq
  | [], _ :: _ => .gt
  | _ :: _, [] => .lt
  | a :: as, b :: bs => if a = b then comparePreLists as bs else compareIdentifiers a b

/-- Embedding of `SemVer.compareMain`: compare `major`, then `minor`, then `patch`. -/
def compareMain (a b : SemVer) : Ordering :=
  match cmpNum a.major b.major with
  | .eq =>
    match cmpNum a.minor b.minor with
    | .eq => cmpNum a.patch b.patch
    | o => o
  | o => o

/-- Embedding of `SemVer.compare`: main triple first, then prerelease precedence;
build metadata is ignored. -/
def compareSemVer (a b : SemVer) : Ordering :=
  match compareMain a b with
  | .eq => comparePre a.pre b.pre
  | o => o

/-- Embedding of `semver.gte a b` = `compare(a, b) >= 0`; `none` models the `TypeError`
thrown when either argument is not a valid version. -/
def semverGte (a b : String) : Option Bool :=
  match parseSemVer a, parseSemVer b with
  | some x, some y => some (compareSemVer x y ≠ Ordering.lt)
  | _, _ => none

/-! ## Data model of the updater -/

/-- A release asset as delivered by the GitHub feed. -/
structure IAsset where
  name : String
  browser_download_url : String
deriving DecidableEq, Repr

/-- A release record as delivered by the GitHub feed (`draft` and
`prerelease` are numeric flags, truthy when nonzero). -/
structure IRelease where
  draft : Nat
  prerelease : Nat
  tag_name : String
  assets : List IAsset
deriving DecidableEq, Repr

/-- The options object passed to `setup` (`IUpdateElectronAppOptions`);
`none` models an absent (`undefined`) field, and `opts = none` overall
models calling `setup()` with no argument. -/
structure IUpdateOptions where
  user : Option String
  repo : Option String
  updateInterval : Option String
  notifyBeforeApply : Option Bool
  notifyBeforeDownload : Option Bool
deriving DecidableEq, Repr

/-- A user/repo pair extracted from a `package.json` repository field. -/
structure RepoRef where
  user : String
  repo : String
deriving DecidableEq, Repr

/-- The `this.options` record after `validateInput` has run. -/
structure ResolvedOptions where
  user : String
  repo : String
  updateInterval : String
  notifyBeforeApply : Bool
  notifyBeforeDownload : Bool
deriving DecidableEq, Repr

/-- The mutable fields of `InlineUpdaterClass` touched by the check cycle.
`downloadUrl` is `none` while the field is `undefined` or `null`. -/
structure UpdaterState where
  hasLatestVersion : Bool
  fetchedVersion : String
  pauseUpdates : Bool
  downloadUrl : Option String
deriving DecidableEq, Repr

/-- Field initializers of `InlineUpdaterClass`: optimistic
`hasLatestVersion = true`, `fetchedVersion = "0.0.0"`, `pauseUpdates`
uninitialized (`undefined`, falsy). -/
def initialState : UpdaterState :=
  { hasLatestVersion := true, fetchedVersion := "0.0.0", pauseUpdates := false,
    downloadUrl := none }

/-- The body of a successful feed response: the code normalizes a single
object to a one-element array (`Array.isArray(data) ? data : [data]`). -/
inductive FeedBody
  | single (r : IRelease)
  | list (rs : List IRelease)
deriving DecidableEq, Repr

/-- Outcome of the `fetch` + `response.ok` + `response.json()` sequence:
`failure` covers a network error, a non-success HTTP status, and a
malformed body — all of them land in the same `catch`. -/
inductive FeedResult
  | failure
  | success (body : FeedBody)
deriving DecidableEq, Repr

/-- The normalization `Array.isArray(data) ? data : [data]`. -/
def normalizeReleases : FeedBody → List IRelease
  | .single r => [r]
  | .list rs => rs

/-- Observable side effects of a check cycle, in program order. -/
inductive Action
  | logLatestOnline (tag : String)
  | logFetchError
  | logHasLatest (v : String)
  | logUpdateUrl (url : Option String)
  | setFeedURL (url : Option String)
  | showDownloadPrompt (v : String)
  | startDownload
  | showRestartPrompt (msg : String)
  | quitAndInstall
deriving DecidableEq, Repr

/-- Per-process environment of a check cycle: the installed app version
(`electronApp.getVersion()`), `process.platform`, and the resolved
user/repo and notification options. -/
structure Env where
  installed : String
  platform : String
  user : String
  repo : String
  notifyBeforeDownload : Bool
deriving DecidableEq, Repr

/-! ## Configuration validation and setup -/

/-- JavaScript `a || b` on an optional string: an absent value and the
empty string are falsy. -/
def jsOrStr (a : Option String) (b : String) : String :=
  match a with
  | some s => if s = "" then b else s
  | none => b

/-- Embedding of `guessRepo`: reading `package.json` and extracting a GitHub reference
with `gh(...)` is I/O, represented by the `derived` argument; every
failure inside the `try` block yields `{user: "", repo: ""}`. -/
def guessRepo (derived : Option RepoRef) : RepoRef :=
  match derived with
  | some r => r
  | none => ⟨"", ""⟩

/-- Embedding of `validateInput`: resolve options against defaults
(`updateInterval = "10 minutes"`, both notify flags `true`, user/repo
falling back to the package guess), then run the three assertions in
order.  `Except.error` models the thrown `AssertionError`. -/
def validateInput (opts : Option IUpdateOptions) (pkgRepo : RepoRef) :
    Except String ResolvedOptions :=
  let repo := jsOrStr (opts.bind (·.repo)) pkgRepo.repo
  let user := jsOrStr (opts.bind (·.user)) pkgRepo.user
  let updateInterval := (opts.bind (·.updateInterval)).getD "10 minutes"
  let nApply := (opts.bind (·.notifyBeforeApply)).getD true
  let nDownload := (opts.bind (·.notifyBeforeDownload)).getD true
  if repo = "" then .error "repo is required"
  else if !startsWithDigit updateInterval then
    .error "updateInterval must be a human-friendly string interval like `20 minutes`"
  else if !msGe5Minutes (msParse updateInterval) then
    .error "updateInterval must be `5 minutes` or more"
  else .ok ⟨user, repo, updateInterval, nApply, nDownload⟩

/-- The platforms accepted by `onAppReady`. -/
def supportedPlatforms : List String := ["darwin", "win32"]

/-- What `setup` leads to: an aborted development run, an unsupported
platform, or a scheduled repeating check cycle (`initUpdater`). -/
inductive SetupOutcome
  | devMode
  | unsupportedPlatform
  | scheduled (opts : ResolvedOptions)
deriving DecidableEq, Repr

/-- Embedding of `setup`: validate the input first (an `AssertionError` escapes before
anything is registered), then apply the `onAppReady` guards; only the
`scheduled` outcome runs `initUpdater`, i.e. schedules check cycles and
touches the network. -/
def setup (opts : Option IUpdateOptions) (derived : Option RepoRef)
    (isPackaged : Bool) (platform : String) : Except String SetupOutcome :=
  match validateInput opts (guessRepo derived) with
  | .error e => .error e
  | .ok r =>
    if !isPackaged then .ok .devMode
    else if !(supportedPlatforms.contains platform) then .ok .unsupportedPlatform
    else .ok (.scheduled r)

/-- Whether `initUpdater` registers the `update-downloaded` handler exactly when
`notifyBeforeApply` is set. -/
def registersOnUpdateDownloaded (r : ResolvedOptions) : Bool :=
  r.notifyBeforeApply

/-! ## The release scan (`fetchDownloadUrl`) -/

/-- Embedding of `isAssetAvailable`: on a platform containing `"win32"` some asset name
must end in `.nupkg`; on a platform containing `"darwin"` some asset name
must contain `"darwin"`; otherwise no asset matches. -/
def isAssetAvailable (platform : String) (assets : List IAsset) : Bool :=
  if containsSeq "win32".data platform.data then
    assets.any (fun a => trailsWith ".nupkg".data a.name.data)
  else if containsSeq "darwin".data platform.data then
    assets.any (fun a => containsSeq "darwin".data a.name.data)
  else false

/-- The validity filter of the release loop: well-formed semver tag, not
draft, not prerelease, and a platform-matching asset. -/
def eligibleRelease (platform : String) (r : IRelease) : Bool :=
  semverValid r.tag_name && r.draft == 0 && r.prerelease == 0 &&
    isAssetAvailable platform r.assets

/-- The `for (const release of releases)` loop: the first eligible record
in feed order wins. -/
def selectRelease (platform : String) : List IRelease → Option IRelease
  | [] => none
  | r :: rest =>
    if eligibleRelease platform r then some r else selectRelease platform rest

/-- The download URL built for a selected release. -/
def downloadUrlFor (user repo tag : String) : String :=
  "https://github.com/" ++ user ++ "/" ++ repo ++ "/releases/download/" ++ tag

/-- Result of `fetchDownloadUrl`: either a thrown error (after the
`console.error` in the `catch`), or a returned URL (`none` = the trailing
`return null`), together with the state as mutated so far. -/
inductive FetchOutcome
  | thrown (st : UpdaterState) (acts : List Action) (msg : String)
  | value (st : UpdaterState) (acts : List Action) (url : Option String)
deriving DecidableEq, Repr

/-- Embedding of `fetchDownloadUrl`: scan the normalized response for the first
eligible release, record its tag in `fetchedVersion` and return its URL;
rethrow on any transport/HTTP/parse failure. -/
def fetchDownloadUrl (env : Env) (st : UpdaterState) (feed : FeedResult) :
    FetchOutcome :=
  match feed with
  | .failure => .thrown st [.logFetchError] "Failed to fetch release information"
  | .success body =>
    match selectRelease env.platform (normalizeReleases body) with
    | some r =>
      .value { st with fetchedVersion := r.tag_name } [.logLatestOnline r.tag_name]
        (some (downloadUrlFor env.user env.repo r.tag_name))
    | none => .value st [] none

/-! ## The check cycle -/

/-- Result of `checkVersionDelta`: the boolean fed into
`hasLatestVersion`, or a propagated exception. -/
inductive DeltaOutcome
  | thrown (st : UpdaterState) (acts : List Action) (msg : String)
  | value (st : UpdaterState) (acts : List Action) (hasLatest : Bool)
deriving DecidableEq, Repr

/-- Embedding of `checkVersionDelta`: store the fetched URL in `downloadUrl`; with no
URL return `false`; otherwise compare the installed version against
`fetchedVersion` with `semver.gte` (which throws on an invalid version). -/
def checkVersionDelta (env : Env) (st : UpdaterState) (feed : FeedResult) :
    DeltaOutcome :=
  match fetchDownloadUrl env st feed with
  | .thrown st' acts msg => .thrown st' acts msg
  | .value st' acts url =>
    let st2 := { st' with downloadUrl := url }
    match url with
    | none => .value st2 acts false
    | some _ =>
      match semverGte env.installed st2.fetchedVersion with
      | none => .thrown st2 acts "Invalid Version"
      | some b => .value st2 acts b

/-- Embedding of `promptDownload` together with the dialog callback: button index `0`
(`"Yes"`) starts the download, any other response sets `pauseUpdates`. -/
def promptDownload (st : UpdaterState) (resp : Nat) :
    UpdaterState × List Action :=
  if resp = 0 then (st, [.showDownloadPrompt st.fetchedVersion, .startDownload])
  else ({ st with pauseUpdates := true }, [.showDownloadPrompt st.fetchedVersion])

/-- One complete run of `checkForUpdates`, with the eventual dialog
response folded in; `thrown` records an exception escaping the cycle
(the caller never catches it). -/
structure CycleOutcome where
  state : UpdaterState
  actions : List Action
  thrown : Option String
deriving DecidableEq, Repr

/-- Embedding of `checkForUpdates`: skip when paused; update `hasLatestVersion` from
`checkVersionDelta`; stop after a log when up to date; otherwise set the
feed URL and either prompt for download consent or start downloading. -/
def checkForUpdates (env : Env) (st : UpdaterState) (feed : FeedResult)
    (resp : Nat) : CycleOutcome :=
  if st.pauseUpdates then ⟨st, [], none⟩
  else
    match checkVersionDelta env st feed with
    | .thrown st' acts msg => ⟨st', acts, some msg⟩
    | .value st' acts b =>
      let st2 := { st' with hasLatestVersion := b }
      if b then ⟨st2, acts ++ [.logHasLatest st2.fetchedVersion], none⟩
      else
        let acts2 := acts ++ [.logUpdateUrl st2.downloadUrl, .setFeedURL st2.downloadUrl]
        if env.notifyBeforeDownload then
          let pr := promptDownload st2 resp
          ⟨pr.1, acts2 ++ pr.2, none⟩
        else ⟨st2, acts2 ++ [.startDownload], none⟩

/-- A sequence of timer firings: each element carries that cycle's feed
outcome and the dialog response that would be given if prompted. -/
def runCycles (env : Env) : UpdaterState → List (FeedResult × Nat) →
    UpdaterState × List Action
  | st, [] => (st, [])
  | st, (feed, resp) :: evs =>
    let out := checkForUpdates env st feed resp
    let rest := runCycles env out.state evs
    (rest.1, out.actions ++ rest.2)

/-- Embedding of `onUpdateDownloaded`: always shows the restart prompt (release notes
on win32, release name elsewhere); response `0` (`"Restart"`) applies and
relaunches. -/
def onUpdateDownloaded (platform releaseNotes releaseName : String)
    (resp : Nat) : List Action :=
  [.showRestartPrompt (if platform = "win32" then releaseNotes else releaseName)] ++
    (if resp = 0 then [.quitAndInstall] else [])

/-! ## The standard semantic-version ordering, as the spec states it

An independent, relational rendering of semver precedence
("major.minor.patch, then pre-release tag precedence"), used to check the
code's comparator against the specification. -/

/-- Precedence of single prerelease identifiers, as the standard states
it: identifiers consisting only of digits compare numerically (whatever
their size — also when the parser kept them as strings), every numeric
identifier sorts below every alphanumeric one, and alphanumeric
identifiers compare lexically in ASCII order. -/
def idLt : PreId → PreId → Prop
  | .num a, .num b => a < b
  | .num a, .str s =>
    if PreId.isDigitStr (.str s) = true then a < digitsToNat s else True
  | .str s, .num b =>
    if PreId.isDigitStr (.str s) = true then digitsToNat s < b else False
  | .str s, .str t =>
    if PreId.isDigitStr (.str s) = true then
      if PreId.isDigitStr (.str t) = true then digitsToNat s < digitsToNat t
      else True
    else
      if PreId.isDigitStr (.str t) = true then False
      else List.Lex (· < ·) s t

instance idLt.instDecidableRel : DecidableRel idLt := fun x y => by
  cases x <;> cases y <;> (unfold idLt; infer_instance)

/-- Lexicographic order on the main `major.minor.patch` triple. -/
def mainLt (a b : SemVer) : Prop :=
  a.major < b.major ∨
    (a.major = b.major ∧
      (a.minor < b.minor ∨ (a.minor = b.minor ∧ a.patch < b.patch)))

/-- Equality of the main triple. -/
def mainEq (a b : SemVer) : Prop :=
  a.major = b.major ∧ a.minor = b.minor ∧ a.patch = b.patch

/-- Prerelease precedence: any prerelease sorts below the plain release,
and otherwise identifier lists compare lexicographically (a strict prefix
sorts first). -/
def specPreLt (a b : List PreId) : Prop :=
  a ≠ [] ∧ (b = [] ∨ List.Lex idLt a b)

/-- The specification's strict semantic-version precedence. -/
def specLt (a b : SemVer) : Prop :=
  mainLt a b ∨ (mainEq a b ∧ specPreLt a.pre b.pre)

/-- Version equivalence: equal precedence (build metadata never counts). -/
def semverEqv (a b : SemVer) : Prop :=
  mainEq a b ∧ a.pre = b.pre

/-- Relation `a ≥ b` in the specification's ordering. -/
def specGe (a b : SemVer) : Prop :=
  specLt b a ∨ semverEqv a b

instance mainLt.instDecidable (a b : SemVer) : Decidable (mainLt a b) := by
  unfold mainLt
  infer_instance

instance mainEq.instDecidable (a b : SemVer) : Decidable (mainEq a b) := by
  unfold mainEq
  infer_instance

instance specPreLt.instDecidable (as bs : List PreId) :
    Decidable (specPreLt as bs) := by
  unfold specPreLt
  infer_instance

instance specLt.instDecidable (a b : SemVer) : Decidable (specLt a b) := by
  unfold specLt
  infer_instance

instance semverEqv.instDecidable (a b : SemVer) : Decidable (semverEqv a b) := by
  unfold semverEqv
  infer_instance

instance specGe.instDecidable (a b : SemVer) : Decidable (specGe a b) := by
  unfold specGe
  infer_instance

/-! ### The code's comparator agrees with the specification's ordering -/

theorem lexLt_self (s : List Char) : lexLt s s = false := by
  induction s with
  | nil => rfl
  | cons c cs ih => simp [lexLt, ih]

theorem lexLt_iff_lex {s t : List Char} :
    lexLt s t = true ↔ List.Lex (· < ·) s t := by
  induction s generalizing t with
  | nil =>
    cases t with
    | nil =>
      simp only [lexLt, Bool.false_eq_true, false_iff]
      intro h; cases h
    | cons d ds =>
      simp only [lexLt, true_iff]
      exact List.Lex.nil
  | cons c cs ih =>
    cases t with
    | nil =>
      simp only [lexLt, Bool.false_eq_true, false_iff]
      intro h; cases h
    | cons d ds =>
      simp only [lexLt, Bool.or_eq_true, Bool.and_eq_true, decide_eq_true_eq]
      constructor
      · rintro (h | ⟨rfl, h⟩)
        · exact List.Lex.rel h
        · exact List.Lex.cons (ih.mp h)
      · intro h
        cases h with
        | rel h => exact Or.inl h
        | cons h => exact Or.inr ⟨rfl, ih.mpr h⟩

theorem lexLt_asymm {s t : List Char} (h : lexLt s t = true) :
    lexLt t s = false := by
  induction s generalizing t with
  | nil =>
    cases t with
    | nil => rfl
    | cons d ds => rfl
  | cons c cs ih =>
    cases t with
    | nil => simp [lexLt] at h
    | cons d ds =>
      simp only [lexLt, Bool.or_eq_true, Bool.and_eq_true, decide_eq_true_eq] at h ⊢
      rcases h with h | ⟨rfl, h⟩
      · simp only [Bool.or_eq_false_iff, Bool.and_eq_false_iff, decide_eq_false_iff_not]
        exact ⟨not_lt_of_lt h, Or.inl fun hdc => absurd hdc.symm (ne_of_lt h)⟩
      · simp [lt_irrefl, ih h]

theorem lexLt_total {s t : List Char} (h : s ≠ t) :
    lexLt s t = true ∨ lexLt t s = true := by
  induction s generalizing t with
  | nil =>
    cases t with
    | nil => exact absurd rfl h
    | cons d ds => exact Or.inl rfl
  | cons c cs ih =>
    cases t with
    | nil => exact Or.inr rfl
    | cons d ds =>
      rcases lt_trichotomy c d with hcd | rfl | hdc
      · exact Or.inl (by simp [lexLt, hcd])
      · have hne : cs ≠ ds := fun hh => h (by rw [hh])
        rcases ih hne with h1 | h1
        · exact Or.inl (by simp [lexLt, h1])
        · exact Or.inr (by simp [lexLt, h1])
      · exact Or.inr (by simp [lexLt, hdc])

theorem lex_irrefl (s : List Char) : ¬ List.Lex (· < ·) s s := fun h => by
  have h1 := lexLt_iff_lex.mpr h
  rw [lexLt_self] at h1
  cases h1

theorem cmpNum_eq_iff {a b : Nat} : cmpNum a b = .eq ↔ a = b := by
  unfold cmpNum
  split_ifs with h1 h2
  · simp [h1]
  · simp [h1]
  · simp [h1]

theorem cmpNum_lt_iff {a b : Nat} : cmpNum a b = .lt ↔ a < b := by
  unfold cmpNum
  split_ifs with h1 h2
  · simp [h1]
  · simp [h2]
  · have h3 : ¬ a < b := by omega
    simp [h3]

theorem cmpNum_gt_iff {a b : Nat} : cmpNum a b = .gt ↔ b < a := by
  unfold cmpNum
  split_ifs with h1 h2
  · simp [h1]
  · have h3 : ¬ b < a := by omega
    simp [h3]
  · have h3 : b < a := by omega
    simp [h3]

theorem idLt_irrefl (x : PreId) : ¬ idLt x x := by
  cases x with
  | num n => simp [idLt]
  | str s =>
    by_cases hd : PreId.isDigitStr (.str s) = true
    · simp [idLt, hd]
    · have hd' : PreId.isDigitStr (.str s) = false := by
        cases h : PreId.isDigitStr (.str s)
        · rfl
        · exact absurd h hd
      simp [idLt, hd', lex_irrefl s]

/-- On identifiers that are not huge all-digit strings, the faithful
`compareIdentifiers` coincides with plain comparison: numbers
numerically, number below alphanumeric, strings lexically. -/
theorem compareIdentifiers_safe {x y : PreId}
    (hx : x.isDigitStr = false) (hy : y.isDigitStr = false) :
    compareIdentifiers x y =
      match x, y with
      | .num a, .num b => cmpNum a b
      | .num _, .str _ => .lt
      | .str _, .num _ => .gt
      | .str a, .str b => if a = b then .eq else if lexLt a b then .lt else .gt := by
  cases x with
  | num a =>
    cases y with
    | num b => simp [compareIdentifiers, PreId.numericTest, PreId.coerced, cmpDouble]
    | str s =>
      have hy' : (!s.isEmpty && s.all Char.isDigit) = false := hy
      simp [compareIdentifiers, PreId.numericTest, hy']
  | str s =>
    have hx' : (!s.isEmpty && s.all Char.isDigit) = false := hx
    cases y with
    | num b => simp [compareIdentifiers, PreId.numericTest, hx']
    | str t =>
      have hy' : (!t.isEmpty && t.all Char.isDigit) = false := hy
      simp [compareIdentifiers, PreId.numericTest, hx', hy']

theorem compareIdentifiers_eq_iff {x y : PreId}
    (hx : x.isDigitStr = false) (hy : y.isDigitStr = false) :
    compareIdentifiers x y = .eq ↔ x = y := by
  rw [compareIdentifiers_safe hx hy]
  cases x with
  | num a =>
    cases y with
    | num b => simp [cmpNum_eq_iff]
    | str b => simp
  | str a =>
    cases y with
    | num b => simp
    | str b =>
      by_cases hab : a = b
      · simp [hab]
      · by_cases hl : lexLt a b = true
        · simp [hab, hl]
        · simp [hab, hl]

theorem compareIdentifiers_lt_iff {x y : PreId}
    (hx : x.isDigitStr = false) (hy : y.isDigitStr = false) :
    compareIdentifiers x y = .lt ↔ idLt x y := by
  rw [compareIdentifiers_safe hx hy]
  cases x with
  | num a =>
    cases y with
    | num b => simp [idLt, cmpNum_lt_iff]
    | str s =>
      have hy' : PreId.isDigitStr (.str s) = false := hy
      simp [idLt, hy']
  | str s =>
    have hx' : PreId.isDigitStr (.str s) = false := hx
    cases y with
    | num b => simp [idLt, hx']
    | str t =>
      have hy' : PreId.isDigitStr (.str t) = false := hy
      by_cases hab : s = t
      · subst hab
        simp [idLt, hx', lex_irrefl s]
      · by_cases hl : lexLt s t = true
        · simp [idLt, hx', hy', hab, hl, lexLt_iff_lex.mp hl]
        · have h2 : ¬ List.Lex (· < ·) s t := fun hh => hl (lexLt_iff_lex.mpr hh)
          simp [idLt, hx', hy', hab, hl, h2]

theorem compareIdentifiers_gt_iff {x y : PreId}
    (hx : x.isDigitStr = false) (hy : y.isDigitStr = false) :
    compareIdentifiers x y = .gt ↔ idLt y x := by
  rw [compareIdentifiers_safe hx hy]
  cases x with
  | num a =>
    cases y with
    | num b => simp [idLt, cmpNum_gt_iff]
    | str s =>
      have hy' : PreId.isDigitStr (.str s) = false := hy
      simp [idLt, hy']
  | str s =>
    have hx' : PreId.isDigitStr (.str s) = false := hx
    cases y with
    | num b => simp [idLt, hx']
    | str t =>
      have hy' : PreId.isDigitStr (.str t) = false := hy
      by_cases hab : s = t
      · subst hab
        simp [idLt, hx', lex_irrefl s]
      · by_cases hl : lexLt s t = true
        · have h2 : lexLt t s = false := lexLt_asymm hl
          have h3 : ¬ List.Lex (· < ·) t s := fun hh => by
            have h4 := lexLt_iff_lex.mpr hh
            rw [h2] at h4
            cases h4
          simp [idLt, hx', hy', hab, hl, h3]
        · have h2 : lexLt t s = true := by
            rcases lexLt_total hab with h' | h'
            · exact absurd h' hl
            · exact h'
          simp [idLt, hx', hy', hab, hl, lexLt_iff_lex.mp h2]

theorem comparePreLists_self (as : List PreId) :
    comparePreLists as as = .eq := by
  induction as with
  | nil => rfl
  | cons a as ih =>
    rw [comparePreLists, if_pos rfl]
    exact ih

theorem comparePreLists_eq_iff {as bs : List PreId}
    (ha : ∀ id ∈ as, id.isDigitStr = false)
    (hb : ∀ id ∈ bs, id.isDigitStr = false) :
    comparePreLists as bs = .eq ↔ as = bs := by
  induction as generalizing bs with
  | nil => cases bs <;> simp [comparePreLists]
  | cons a as ih =>
    cases bs with
    | nil => simp [comparePreLists]
    | cons b bs =>
      have hah := ha a (List.mem_cons_self a as)
      have hbh := hb b (List.mem_cons_self b bs)
      have hat := fun id hid => ha id (List.mem_cons_of_mem a hid)
      have hbt := fun id hid => hb id (List.mem_cons_of_mem b hid)
      by_cases hab : a = b
      · subst hab
        simp [comparePreLists, ih hat hbt]
      · rw [comparePreLists, if_neg hab]
        simp only [List.cons.injEq]
        constructor
        · intro h
          exact absurd ((compareIdentifiers_eq_iff hah hbh).mp h) hab
        · rintro ⟨rfl, _⟩
          exact absurd rfl hab

theorem comparePreLists_lt_iff {as bs : List PreId}
    (ha : ∀ id ∈ as, id.isDigitStr = false)
    (hb : ∀ id ∈ bs, id.isDigitStr = false) :
    comparePreLists as bs = .lt ↔ List.Lex idLt as bs := by
  induction as generalizing bs with
  | nil =>
    cases bs with
    | nil =>
      simp only [comparePreLists]
      constructor
      · intro h; cases h
      · intro h; cases h
    | cons b bs =>
      simp only [comparePreLists, true_iff]
      exact List.Lex.nil
  | cons a as ih =>
    cases bs with
    | nil =>
      simp only [comparePreLists]
      constructor
      · intro h; cases h
      · intro h; cases h
    | cons b bs =>
      have hah := ha a (List.mem_cons_self a as)
      have hbh := hb b (List.mem_cons_self b bs)
      have hat := fun id hid => ha id (List.mem_cons_of_mem a hid)
      have hbt := fun id hid => hb id (List.mem_cons_of_mem b hid)
      by_cases hab : a = b
      · subst hab
        rw [comparePreLists, if_pos rfl]
        constructor
        · intro h
          exact List.Lex.cons ((ih hat hbt).mp h)
        · intro h
          cases h with
          | rel h => exact absurd h (idLt_irrefl a)
          | cons h => exact (ih hat hbt).mpr h
      · rw [comparePreLists, if_neg hab]
        constructor
        · intro h
          exact List.Lex.rel ((compareIdentifiers_lt_iff hah hbh).mp h)
        · intro h
          cases h with
          | rel h => exact (compareIdentifiers_lt_iff hah hbh).mpr h
          | cons h => exact absurd rfl hab

theorem comparePreLists_gt_iff {as bs : List PreId}
    (ha : ∀ id ∈ as, id.isDigitStr = false)
    (hb : ∀ id ∈ bs, id.isDigitStr = false) :
    comparePreLists as bs = .gt ↔ List.Lex idLt bs as := by
  induction as generalizing bs with
  | nil =>
    cases bs with
    | nil =>
      simp only [comparePreLists]
      constructor
      · intro h; cases h
      · intro h; cases h
    | cons b bs =>
      simp only [comparePreLists]
      constructor
      · intro h; cases h
      · intro h; cases h
  | cons a as ih =>
    cases bs with
    | nil =>
      simp only [comparePreLists, true_iff]
      exact List.Lex.nil
    | cons b bs =>
      have hah := ha a (List.mem_cons_self a as)
      have hbh := hb b (List.mem_cons_self b bs)
      have hat := fun id hid => ha id (List.mem_cons_of_mem a hid)
      have hbt := fun id hid => hb id (List.mem_cons_of_mem b hid)
      by_cases hab : a = b
      · subst hab
        rw [comparePreLists, if_pos rfl]
        constructor
        · intro h
          exact List.Lex.cons ((ih hat hbt).mp h)
        · intro h
          cases h with
          | rel h => exact absurd h (idLt_irrefl a)
          | cons h => exact (ih hat hbt).mpr h
      · rw [comparePreLists, if_neg hab]
        constructor
        · intro h
          exact List.Lex.rel ((compareIdentifiers_gt_iff hah hbh).mp h)
        · intro h
          cases h with
          | rel h => exact (compareIdentifiers_gt_iff hah hbh).mpr h
          | cons h => exact absurd rfl hab

theorem comparePre_self (as : List PreId) : comparePre as as = .eq := by
  cases as with
  | nil => rfl
  | cons a as =>
    have hmain : comparePre (a :: as) (a :: as) = comparePreLists (a :: as) (a :: as) := rfl
    rw [hmain]
    exact comparePreLists_self _

theorem comparePre_lt_iff {as bs : List PreId}
    (ha : ∀ id ∈ as, id.isDigitStr = false)
    (hb : ∀ id ∈ bs, id.isDigitStr = false) :
    comparePre as bs = .lt ↔ specPreLt as bs := by
  cases as with
  | nil =>
    cases bs with
    | nil =>
      simp only [comparePre, specPreLt]
      constructor
      · intro h; cases h
      · rintro ⟨h, _⟩; exact absurd rfl h
    | cons b bs =>
      simp only [comparePre, specPreLt]
      constructor
      · intro h; cases h
      · rintro ⟨h, _⟩; exact absurd rfl h
  | cons a as =>
    cases bs with
    | nil => simp [comparePre, specPreLt]
    | cons b bs =>
      have hmain : comparePre (a :: as) (b :: bs) = comparePreLists (a :: as) (b :: bs) := rfl
      rw [hmain, comparePreLists_lt_iff ha hb]
      simp only [specPreLt, ne_eq, List.cons_ne_nil, not_false_eq_true, true_and]
      constructor
      · intro h
        exact Or.inr h
      · rintro (h | h)
        · cases h
        · exact h

theorem comparePre_eq_iff {as bs : List PreId}
    (ha : ∀ id ∈ as, id.isDigitStr = false)
    (hb : ∀ id ∈ bs, id.isDigitStr = false) :
    comparePre as bs = .eq ↔ as = bs := by
  cases as with
  | nil => cases bs <;> simp [comparePre]
  | cons a as =>
    cases bs with
    | nil => simp [comparePre]
    | cons b bs =>
      have hmain : comparePre (a :: as) (b :: bs) = comparePreLists (a :: as) (b :: bs) := rfl
      rw [hmain, comparePreLists_eq_iff ha hb]

theorem comparePre_gt_iff {as bs : List PreId}
    (ha : ∀ id ∈ as, id.isDigitStr = false)
    (hb : ∀ id ∈ bs, id.isDigitStr = false) :
    comparePre as bs = .gt ↔ specPreLt bs as := by
  cases as with
  | nil =>
    cases bs with
    | nil =>
      simp only [comparePre, specPreLt]
      constructor
      · intro h; cases h
      · rintro ⟨h, _⟩; exact absurd rfl h
    | cons b bs => simp [comparePre, specPreLt]
  | cons a as =>
    cases bs with
    | nil =>
      simp only [comparePre, specPreLt]
      constructor
      · intro h; cases h
      · rintro ⟨h, _⟩; exact absurd rfl h
    | cons b bs =>
      have hmain : comparePre (a :: as) (b :: bs) = comparePreLists (a :: as) (b :: bs) := rfl
      rw [hmain, comparePreLists_gt_iff ha hb]
      simp only [specPreLt, ne_eq, List.cons_ne_nil, not_false_eq_true, true_and]
      constructor
      · intro h
        exact Or.inr h
      · rintro (h | h)
        · cases h
        · exact h

theorem compareMain_eq_iff {a b : SemVer} :
    compareMain a b = .eq ↔ mainEq a b := by
  unfold compareMain mainEq cmpNum
  split_ifs <;> simp_all

theorem compareMain_lt_iff {a b : SemVer} :
    compareMain a b = .lt ↔ mainLt a b := by
  unfold compareMain mainLt cmpNum
  split_ifs <;> simp_all

theorem compareMain_gt_iff {a b : SemVer} :
    compareMain a b = .gt ↔ mainLt b a := by
  unfold compareMain mainLt cmpNum
  split_ifs <;> simp_all <;> omega

theorem compareMain_self (a : SemVer) : compareMain a a = .eq := by
  simp [compareMain, cmpNum]

theorem compareSemVer_eq_iff {a b : SemVer}
    (ha : ∀ id ∈ a.pre, id.isDigitStr = false)
    (hb : ∀ id ∈ b.pre, id.isDigitStr = false) :
    compareSemVer a b = .eq ↔ semverEqv a b := by
  unfold compareSemVer semverEqv
  rcases h1 : compareMain a b with _ | _ | _
  · have hm : mainLt a b := compareMain_lt_iff.mp h1
    constructor
    · intro h; cases h
    · rintro ⟨hme, _⟩
      unfold mainLt at hm
      unfold mainEq at hme
      omega
  · rw [comparePre_eq_iff ha hb]
    have hme : mainEq a b := compareMain_eq_iff.mp h1
    simp [hme]
  · have hm : mainLt b a := compareMain_gt_iff.mp h1
    constructor
    · intro h; cases h
    · rintro ⟨hme, _⟩
      unfold mainLt at hm
      unfold mainEq at hme
      omega

theorem compareSemVer_lt_iff {a b : SemVer}
    (ha : ∀ id ∈ a.pre, id.isDigitStr = false)
    (hb : ∀ id ∈ b.pre, id.isDigitStr = false) :
    compareSemVer a b = .lt ↔ specLt a b := by
  unfold compareSemVer specLt
  rcases h1 : compareMain a b with _ | _ | _
  · have hm : mainLt a b := compareMain_lt_iff.mp h1
    simp [hm]
  · have hme : mainEq a b := compareMain_eq_iff.mp h1
    have hnl : ¬ mainLt a b := by
      unfold mainLt
      unfold mainEq at hme
      omega
    rw [comparePre_lt_iff ha hb]
    simp [hme, hnl]
  · have hm : mainLt b a := compareMain_gt_iff.mp h1
    have hnl : ¬ mainLt a b := by
      unfold mainLt at hm ⊢
      omega
    have hne : ¬ mainEq a b := by
      unfold mainLt at hm
      unfold mainEq
      omega
    simp [hnl, hne]

theorem compareSemVer_gt_iff {a b : SemVer}
    (ha : ∀ id ∈ a.pre, id.isDigitStr = false)
    (hb : ∀ id ∈ b.pre, id.isDigitStr = false) :
    compareSemVer a b = .gt ↔ specLt b a := by
  unfold compareSemVer specLt
  rcases h1 : compareMain a b with _ | _ | _
  · have hm : mainLt a b := compareMain_lt_iff.mp h1
    have hnl : ¬ mainLt b a := by
      unfold mainLt at hm ⊢
      omega
    have hne : ¬ mainEq b a := by
      unfold mainLt at hm
      unfold mainEq
      omega
    simp [hnl, hne]
  · have hme : mainEq a b := compareMain_eq_iff.mp h1
    have hnl : ¬ mainLt b a := by
      unfold mainLt
      unfold mainEq at hme
      omega
    have hme' : mainEq b a := by
      unfold mainEq at hme ⊢
      omega
    rw [comparePre_gt_iff ha hb]
    simp [hme', hnl]
  · have hm : mainLt b a := compareMain_gt_iff.mp h1
    simp [hm]

/-- The code's `gte` test (`compare(a, b) >= 0`, i.e. not `.lt`) is
exactly `≥` in the specification's ordering, provided neither side
carries an all-digit prerelease identifier kept as a string (value at or
above `2^53`) — the inputs on which the double coercion can collide. -/
theorem compareSemVer_not_lt_iff {a b : SemVer}
    (ha : ∀ id ∈ a.pre, id.isDigitStr = false)
    (hb : ∀ id ∈ b.pre, id.isDigitStr = false) :
    (compareSemVer a b ≠ .lt) ↔ specGe a b := by
  unfold specGe
  rcases h : compareSemVer a b with _ | _ | _
  · simp only [ne_eq, not_true_eq_false, false_iff]
    rintro (hlt | heq)
    · have h2 := (compareSemVer_gt_iff ha hb).mpr hlt
      rw [h] at h2
      cases h2
    · have h2 := (compareSemVer_eq_iff ha hb).mpr heq
      rw [h] at h2
      cases h2
  · simp only [ne_eq, reduceCtorEq, not_false_eq_true, true_iff]
    exact Or.inr ((compareSemVer_eq_iff ha hb).mp h)
  · simp only [ne_eq, reduceCtorEq, not_false_eq_true, true_iff]
    exact Or.inl ((compareSemVer_gt_iff ha hb).mp h)

theorem specGe_refl (a : SemVer) : specGe a a :=
  Or.inr ⟨⟨rfl, rfl, rfl⟩, rfl⟩

theorem compareSemVer_self (a : SemVer) : compareSemVer a a = .eq := by
  unfold compareSemVer
  rw [compareMain_self]
  exact comparePre_self _

/-! ## Helper lemmas about the release scan and the check cycle -/

theorem selectRelease_append {platform : String} {pre post : List IRelease}
    {r : IRelease}
    (hpre : ∀ x ∈ pre, eligibleRelease platform x = false)
    (hr : eligibleRelease platform r = true) :
    selectRelease platform (pre ++ r :: post) = some r := by
  induction pre with
  | nil => simp [selectRelease, hr]
  | cons x xs ih =>
    have hx := hpre x (List.mem_cons_self x xs)
    rw [List.cons_append, selectRelease, if_neg (by simp [hx])]
    exact ih fun y hy => hpre y (List.mem_cons_of_mem x hy)

theorem selectRelease_eligible {platform : String} {rs : List IRelease}
    {r : IRelease} (h : selectRelease platform rs = some r) :
    eligibleRelease platform r = true := by
  induction rs with
  | nil => cases h
  | cons x xs ih =>
    rw [selectRelease] at h
    by_cases hx : eligibleRelease platform x = true
    · rw [if_pos hx] at h
      cases h
      exact hx
    · rw [if_neg hx] at h
      exact ih h

/-- The action lists produced inside `checkVersionDelta` are logs only. -/
def DeltaOutcome.acts : DeltaOutcome → List Action
  | .thrown _ a _ => a
  | .value _ a _ => a

theorem checkVersionDelta_acts_no_prompt (env : Env) (st : UpdaterState)
    (feed : FeedResult) (v : String) :
    Action.showDownloadPrompt v ∉ (checkVersionDelta env st feed).acts := by
  unfold checkVersionDelta fetchDownloadUrl
  rcases feed with _ | body
  · simp [DeltaOutcome.acts]
  · rcases hsel : selectRelease env.platform (normalizeReleases body) with _ | r
    · simp [hsel, DeltaOutcome.acts]
    · rcases hgte : semverGte env.installed r.tag_name with _ | b <;>
        simp [hsel, hgte, DeltaOutcome.acts]

theorem checkForUpdates_paused (env : Env) (st : UpdaterState)
    (feed : FeedResult) (resp : Nat) (h : st.pauseUpdates = true) :
    checkForUpdates env st feed resp = ⟨st, [], none⟩ := by
  simp [checkForUpdates, h]

theorem runCycles_paused (env : Env) (st : UpdaterState)
    (evs : List (FeedResult × Nat)) (h : st.pauseUpdates = true) :
    runCycles env st evs = (st, []) := by
  induction evs with
  | nil => rfl
  | cons ev evs ih =>
    rcases ev with ⟨feed, resp⟩
    rw [runCycles, checkForUpdates_paused env st feed resp h]
    simp [ih]

theorem checkForUpdates_hasLatest (env : Env) (st : UpdaterState)
    (feed : FeedResult) (resp : Nat) {st' : UpdaterState} {acts : List Action}
    {b : Bool}
    (hpause : st.pauseUpdates = false)
    (hdel : checkVersionDelta env st feed = .value st' acts b) :
    (checkForUpdates env st feed resp).state.hasLatestVersion = b := by
  rw [checkForUpdates, if_neg (by simp [hpause]), hdel]
  cases b
  · simp only [Bool.false_eq_true, if_false]
    by_cases hnd : env.notifyBeforeDownload = true
    · rw [if_pos hnd]
      unfold promptDownload
      by_cases hr : resp = 0
      · simp [hr]
      · simp [hr]
    · rw [if_neg hnd]
  · simp

theorem checkForUpdates_upToDate (env : Env) (st : UpdaterState)
    (feed : FeedResult) (resp : Nat) {st' : UpdaterState} {acts : List Action}
    (hpause : st.pauseUpdates = false)
    (hdel : checkVersionDelta env st feed = .value st' acts true) :
    checkForUpdates env st feed resp =
      ⟨{ st' with hasLatestVersion := true },
        acts ++ [.logHasLatest st'.fetchedVersion], none⟩ := by
  rw [checkForUpdates, if_neg (by simp [hpause]), hdel]
  simp

/-- State component of a `checkVersionDelta` outcome. -/
def DeltaOutcome.state : DeltaOutcome → UpdaterState
  | .thrown s _ _ => s
  | .value s _ _ => s

theorem checkVersionDelta_state_valid (env : Env) (st : UpdaterState)
    (feed : FeedResult) (hst : semverValid st.fetchedVersion = true) :
    semverValid (checkVersionDelta env st feed).state.fetchedVersion = true := by
  unfold checkVersionDelta fetchDownloadUrl
  rcases feed with _ | body
  · simpa [DeltaOutcome.state] using hst
  · rcases hsel : selectRelease env.platform (normalizeReleases body) with _ | r
    · simpa [hsel, DeltaOutcome.state] using hst
    · have he := selectRelease_eligible hsel
      simp only [eligibleRelease, Bool.and_eq_true] at he
      rcases hgte : semverGte env.installed r.tag_name with _ | b <;>
        simp [hsel, hgte, DeltaOutcome.state, he.1.1.1]

/-! ## The claims -/

/-- Claim C1: for every feed response sequence, the release scan returns the
first record in feed order that passes all validity filters — its result
does not depend on the records after that point (in particular not on
semantically higher versions later in the feed), so it never re-sorts or
selects the maximum version. -/
theorem claim1_first_eligible_in_feed_order
    (env : Env) (st : UpdaterState) (pre post : List IRelease) (r : IRelease)
    (hpre : ∀ x ∈ pre, eligibleRelease env.platform x = false)
    (hr : eligibleRelease env.platform r = true) :
    fetchDownloadUrl env st (.success (.list (pre ++ r :: post))) =
      .value { st with fetchedVersion := r.tag_name }
        [.logLatestOnline r.tag_name]
        (some (downloadUrlFor env.user env.repo r.tag_name)) := by
  simp [fetchDownloadUrl, normalizeReleases, selectRelease_append hpre hr]

/-- Witness for C1 on the spec's own example: the feed
`[v1.3.0 (prerelease), v1.2.0, v1.4.0]` resolves to the first eligible
`v1.2.0`, not the semantically newer `v1.4.0`. -/
theorem claim1_first_eligible_in_feed_order_witness :
    fetchDownloadUrl ⟨"1.0.0", "win32", "owner", "repo", true⟩ initialState
      (.success (.list ([⟨0, 1, "v1.3.0", [⟨"app.nupkg", "u3"⟩]⟩] ++
        ⟨0, 0, "v1.2.0", [⟨"app.nupkg", "u2"⟩]⟩ ::
          [⟨0, 0, "v1.4.0", [⟨"app.nupkg", "u4"⟩]⟩]))) =
      .value { initialState with fetchedVersion := "v1.2.0" }
        [.logLatestOnline "v1.2.0"]
        (some (downloadUrlFor "owner" "repo" "v1.2.0")) :=
  claim1_first_eligible_in_feed_order _ _ _ _ _ (by decide) (by decide)

/-- Claim C2 (refuting evaluation): a cycle whose feed call succeeds with
zero eligible candidates is not a state-preserving no-op — it flips
`hasLatestVersion` from the pre-call `true` to `false`, hands the null URL
to `setFeedURL` and fires the download prompt; and a cycle whose feed call
fails rethrows `"Failed to fetch release information"`, which escapes
`checkForUpdates` uncaught. -/
theorem claim2_cycle_not_noop_on_empty_or_failed_feed :
    ((checkForUpdates ⟨"1.0.0", "win32", "owner", "repo", true⟩ initialState
        (.success (.list [])) 0).state.hasLatestVersion = false
      ∧ initialState.hasLatestVersion = true
      ∧ Action.setFeedURL none ∈
          (checkForUpdates ⟨"1.0.0", "win32", "owner", "repo", true⟩ initialState
            (.success (.list [])) 0).actions
      ∧ Action.showDownloadPrompt "0.0.0" ∈
          (checkForUpdates ⟨"1.0.0", "win32", "owner", "repo", true⟩ initialState
            (.success (.list [])) 0).actions)
    ∧ (checkForUpdates ⟨"1.0.0", "win32", "owner", "repo", true⟩ initialState
        .failure 0).thrown = some "Failed to fetch release information" := by
  decide

/-- Claim C9 (refuting evaluation): the coordinator state is created
optimistic (`hasLatestVersion = true`), yet an "update available" consent
prompt can fire although no resolution has produced a candidate newer than
the installed version: a first cycle whose feed resolution completes with
zero eligible candidates prompts for the placeholder version `0.0.0`. -/
theorem claim9_prompt_before_newer_candidate :
    initialState.hasLatestVersion = true ∧
      Action.showDownloadPrompt "0.0.0" ∈
        (checkForUpdates ⟨"9.9.9", "win32", "owner", "repo", true⟩ initialState
          (.success (.list [])) 0).actions := by
  decide

/-- Claim C10: `fetchedVersion` always holds a well-formed semantic-version
string: it is initialized to `"0.0.0"`, and every check cycle writes only
tag names that already passed the `semver.valid` filter, so the invariant
is preserved by every operation of the updater. -/
theorem claim10_fetchedVersion_always_valid :
    semverValid initialState.fetchedVersion = true ∧
      ∀ (env : Env) (st : UpdaterState) (feed : FeedResult) (resp : Nat),
        semverValid st.fetchedVersion = true →
        semverValid (checkForUpdates env st feed resp).state.fetchedVersion = true := by
  refine ⟨by decide, ?_⟩
  intro env st feed resp hst
  by_cases hp : st.pauseUpdates = true
  · rw [checkForUpdates_paused env st feed resp hp]
    exact hst
  · have hd := checkVersionDelta_state_valid env st feed hst
    rw [checkForUpdates, if_neg (by simpa using hp)]
    rcases hdel : checkVersionDelta env st feed with ⟨st', acts, msg⟩ | ⟨st', acts, b⟩ <;>
      rw [hdel] at hd <;> simp only [DeltaOutcome.state] at hd
    · simpa using hd
    · cases b
      · simp only [Bool.false_eq_true, if_false]
        by_cases hnd : env.notifyBeforeDownload = true
        · rw [if_pos hnd]
          unfold promptDownload
          by_cases hr : resp = 0 <;> simp [hr, hd]
        · rw [if_neg hnd]
          simpa using hd
      · simpa using hd

/-- Witness for C10: the invariant holds initially and is preserved by a
concrete cycle that adopts the fetched tag `2.0.0`. -/
theorem claim10_fetchedVersion_always_valid_witness :
    semverValid initialState.fetchedVersion = true ∧
      semverValid (checkForUpdates ⟨"1.0.0", "win32", "owner", "repo", true⟩
        initialState
        (.success (.list [⟨0, 0, "2.0.0", [⟨"a.nupkg", "u"⟩]⟩])) 1).state.fetchedVersion = true :=
  ⟨claim10_fetchedVersion_always_valid.1,
    claim10_fetchedVersion_always_valid.2 _ _ _ _ (by decide)⟩

/-- Claim C3 (counterexample): at installed `1.0.0-9999999999999999`
against fetched candidate `1.0.0-10000000000000000` the standard ordering
says the installed version is strictly older (`specLt`, numeric
comparison of the all-digit identifiers), yet the cycle reports up to
date: both identifiers exceed `2^53`, are kept as strings by the parser,
and `compareIdentifiers`' unary-`+` coercion rounds both to the same
double `1e16`, so `semver.gte` sees equal versions — refuting the claimed
biconditional with the standard ordering. -/
theorem claim3_counterexample :
    (checkForUpdates ⟨"1.0.0-9999999999999999", "win32", "owner", "repo", true⟩
        initialState
        (.success (.list [⟨0, 0, "1.0.0-10000000000000000", [⟨"a.nupkg", "u"⟩]⟩]))
        0).state.hasLatestVersion = true
    ∧ parseSemVer "1.0.0-9999999999999999" =
        some ⟨1, 0, 0, [.str "9999999999999999".data], []⟩
    ∧ parseSemVer "1.0.0-10000000000000000" =
        some ⟨1, 0, 0, [.str "10000000000000000".data], []⟩
    ∧ selectRelease "win32"
        [⟨0, 0, "1.0.0-10000000000000000", [⟨"a.nupkg", "u"⟩]⟩] =
        some ⟨0, 0, "1.0.0-10000000000000000", [⟨"a.nupkg", "u"⟩]⟩
    ∧ specLt ⟨1, 0, 0, [.str "9999999999999999".data], []⟩
        ⟨1, 0, 0, [.str "10000000000000000".data], []⟩
    ∧ ¬ specGe ⟨1, 0, 0, [.str "9999999999999999".data], []⟩
        ⟨1, 0, 0, [.str "10000000000000000".data], []⟩ := by
  decide

/-- Claim C3 (amended): when a cycle resolves a candidate `r`, both the
installed version and the candidate tag are well-formed semantic
versions, and neither carries an all-digit prerelease identifier kept as
a string (value at or above `2^53`, where the comparator's unary-`+`
double coercion can collide — see the counterexample), the derived
`isUpToDate` flag (`hasLatestVersion`) is true exactly when installed ≥
candidate in the standard semantic-version ordering; and when the
installed version string equals the candidate tag, the cycle reports up
to date and performs log actions only — no prompt, no download, no
exception. -/
theorem claim3_isUpToDate_iff_semver_ge
    (env : Env) (st : UpdaterState) (body : FeedBody) (resp : Nat)
    (r : IRelease) (pv pc : SemVer)
    (hpause : st.pauseUpdates = false)
    (hsel : selectRelease env.platform (normalizeReleases body) = some r)
    (hv : parseSemVer env.installed = some pv)
    (hc : parseSemVer r.tag_name = some pc)
    (hsv : ∀ id ∈ pv.pre, PreId.isDigitStr id = false)
    (hsc : ∀ id ∈ pc.pre, PreId.isDigitStr id = false) :
    ((checkForUpdates env st (.success body) resp).state.hasLatestVersion = true ↔
      specGe pv pc)
    ∧ (env.installed = r.tag_name →
        checkForUpdates env st (.success body) resp =
          ⟨{ st with
              fetchedVersion := r.tag_name,
              hasLatestVersion := true,
              downloadUrl := some (downloadUrlFor env.user env.repo r.tag_name) },
            [.logLatestOnline r.tag_name, .logHasLatest r.tag_name], none⟩) := by
  have hgte : semverGte env.installed r.tag_name =
      some (decide (compareSemVer pv pc ≠ Ordering.lt)) := by
    simp [semverGte, hv, hc]
  have hdelta : checkVersionDelta env st (.success body) =
      .value { st with
          fetchedVersion := r.tag_name,
          downloadUrl := some (downloadUrlFor env.user env.repo r.tag_name) }
        [.logLatestOnline r.tag_name]
        (decide (compareSemVer pv pc ≠ Ordering.lt)) := by
    rw [checkVersionDelta, fetchDownloadUrl]
    simp [hsel, hgte]
  constructor
  · rw [checkForUpdates_hasLatest env st _ resp hpause hdelta, decide_eq_true_eq]
    exact compareSemVer_not_lt_iff hsv hsc
  · intro heq
    have hpc : pv = pc := by
      rw [heq] at hv
      rw [hv] at hc
      exact Option.some.inj hc
    have hbtrue : decide (compareSemVer pv pc ≠ Ordering.lt) = true := by
      rw [hpc, compareSemVer_self]
      decide
    rw [hbtrue] at hdelta
    rw [checkForUpdates_upToDate env st _ resp hpause hdelta]
    simp

/-- Witness for C3 at installed `1.5.0` against fetched candidate `1.5.0`:
equal versions count as up to date and the cycle is invisible to the
user. -/
theorem claim3_isUpToDate_iff_semver_ge_witness :
    ((checkForUpdates ⟨"1.5.0", "win32", "owner", "repo", true⟩ initialState
        (.success (.list [⟨0, 0, "1.5.0", [⟨"a.nupkg", "u"⟩]⟩])) 0).state.hasLatestVersion = true ↔
      specGe ⟨1, 5, 0, [], []⟩ ⟨1, 5, 0, [], []⟩)
    ∧ ("1.5.0" = (⟨0, 0, "1.5.0", [⟨"a.nupkg", "u"⟩]⟩ : IRelease).tag_name →
        checkForUpdates ⟨"1.5.0", "win32", "owner", "repo", true⟩ initialState
          (.success (.list [⟨0, 0, "1.5.0", [⟨"a.nupkg", "u"⟩]⟩])) 0 =
          ⟨{ initialState with
              fetchedVersion := "1.5.0",
              hasLatestVersion := true,
              downloadUrl := some (downloadUrlFor "owner" "repo" "1.5.0") },
            [.logLatestOnline "1.5.0", .logHasLatest "1.5.0"], none⟩) :=
  claim3_isUpToDate_iff_semver_ge _ initialState _ 0 _ ⟨1, 5, 0, [], []⟩ ⟨1, 5, 0, [], []⟩
    rfl (by decide) (by decide) (by decide) (by decide) (by decide)

/-- Claim C4: once the download consent prompt is answered with anything
but "Yes" (index 0), `pauseUpdates` is set in the resulting state, and
from that state every subsequent timer firing — whatever its feed outcome
or dialog response — leaves the state untouched and performs no action at
all: no further prompt, no download, and nothing ever clears the flag. -/
theorem claim4_decline_pauses_forever
    (env : Env) (st : UpdaterState) (feed : FeedResult) (resp : Nat) (v : String)
    (hresp : resp ≠ 0)
    (hprompt : Action.showDownloadPrompt v ∈
      (checkForUpdates env st feed resp).actions) :
    (checkForUpdates env st feed resp).state.pauseUpdates = true ∧
      ∀ evs, runCycles env (checkForUpdates env st feed resp).state evs =
        ((checkForUpdates env st feed resp).state, []) := by
  have hpauseTrue : (checkForUpdates env st feed resp).state.pauseUpdates = true := by
    by_cases hp : st.pauseUpdates = true
    · rw [checkForUpdates_paused env st feed resp hp] at hprompt
      simp at hprompt
    · have hnop := checkVersionDelta_acts_no_prompt env st feed v
      rw [checkForUpdates, if_neg (by simpa using hp)] at hprompt ⊢
      generalize hdel : checkVersionDelta env st feed = d at hprompt hnop ⊢
      cases d with
      | thrown st' acts msg =>
        simp only [DeltaOutcome.acts] at hnop
        simp at hprompt
        exact absurd hprompt hnop
      | value st' acts b =>
        simp only [DeltaOutcome.acts] at hnop
        cases b with
        | false =>
          by_cases hnd : env.notifyBeforeDownload = true
          · simp [promptDownload, hresp, hnd]
          · simp [hnd, hnop] at hprompt
        | true => simp [hnop] at hprompt
  exact ⟨hpauseTrue, fun evs => runCycles_paused env _ evs hpauseTrue⟩

/-- Witness for C4: installed `1.0.0`, fetched candidate `2.0.0`, response
"Later" (index 1): the state is paused and an arbitrary later trace of
firings is a complete no-op. -/
theorem claim4_decline_pauses_forever_witness :
    (checkForUpdates ⟨"1.0.0", "win32", "owner", "repo", true⟩ initialState
        (.success (.list [⟨0, 0, "2.0.0", [⟨"a.nupkg", "u"⟩]⟩])) 1).state.pauseUpdates = true ∧
      ∀ evs, runCycles ⟨"1.0.0", "win32", "owner", "repo", true⟩
          (checkForUpdates ⟨"1.0.0", "win32", "owner", "repo", true⟩ initialState
            (.success (.list [⟨0, 0, "2.0.0", [⟨"a.nupkg", "u"⟩]⟩])) 1).state evs =
        ((checkForUpdates ⟨"1.0.0", "win32", "owner", "repo", true⟩ initialState
            (.success (.list [⟨0, 0, "2.0.0", [⟨"a.nupkg", "u"⟩]⟩])) 1).state, []) :=
  claim4_decline_pauses_forever _ _ _ _ "2.0.0" (by decide) (by decide)

theorem msParse_den_pos {s : String} {v : MsValue} (h : msParse s = some v) :
    0 < v.den := by
  unfold msParse at h
  by_cases h100 : s.data.length > 100
  · rw [if_pos h100] at h
    cases h
  · rw [if_neg h100] at h
    dsimp only at h
    split at h
    · cases h
    · rename_i n den rest heq
      split at h
      · cases h
      · cases h
        split at heq
        · split_ifs at heq with hfp
          cases heq
          exact pow_pos (by norm_num) _
        · split_ifs at heq with hip
          cases heq
          exact Nat.one_pos

theorem validateInput_interval_bad (opts : Option IUpdateOptions)
    (pkgRepo : RepoRef) {i : String}
    (hi : (opts.bind fun o => o.updateInterval) = some i)
    (hbad : startsWithDigit i = false ∨ msGe5Minutes (msParse i) = false) :
    ∃ e, validateInput opts pkgRepo = Except.error e := by
  unfold validateInput
  rw [hi]
  simp only [Option.getD_some]
  split_ifs with h1 h2 h3
  · exact ⟨_, rfl⟩
  · exact ⟨_, rfl⟩
  · exact ⟨_, rfl⟩
  · exfalso
    rcases hbad with hb | hb
    · exact h2 (by simp [hb])
    · exact h3 (by simp [hb])

/-- Claim C5: for every provided `updateInterval` string that is malformed
(does not start with digits) or parses to a duration strictly below five
minutes, `setup` fails with a configuration assertion: the result is an
`Except.error`, so no check cycle is scheduled and no network activity
occurs (cycles only run from the `scheduled` outcome). -/
theorem claim5_bad_interval_rejected
    (opts : IUpdateOptions) (i : String)
    (hi : opts.updateInterval = some i)
    (hbad : startsWithDigit i = false ∨
      ∃ v, msParse i = some v ∧ v.toRat < 300000)
    (derived : Option RepoRef) (isPackaged : Bool) (platform : String) :
    ∃ e, setup (some opts) derived isPackaged platform = Except.error e := by
  have hi' : ((some opts).bind fun o => o.updateInterval) = some i := hi
  have hbad' : startsWithDigit i = false ∨ msGe5Minutes (msParse i) = false := by
    rcases hbad with h | ⟨v, hv, hlt⟩
    · exact Or.inl h
    · right
      rw [hv]
      have hden : (0 : ℚ) < (v.den : ℚ) := by
        exact_mod_cast msParse_den_pos hv
      rw [MsValue.toRat, div_lt_iff₀ hden] at hlt
      have hcross : v.num < 300000 * (v.den : Int) := by exact_mod_cast hlt
      simp only [msGe5Minutes, decide_eq_false_iff_not, not_le]
      omega
  rcases validateInput_interval_bad (some opts) (guessRepo derived) hi' hbad' with ⟨e, he⟩
  exact ⟨e, by simp [setup, he]⟩

/-- Witness for C5: `updateInterval = "4 minutes"` parses to 240000 ms,
below the 5-minute minimum, and `setup` rejects it. -/
theorem claim5_bad_interval_rejected_witness :
    ∃ e, setup (some ⟨none, none, some "4 minutes", none, none⟩) none true "win32" =
      Except.error e :=
  claim5_bad_interval_rejected _ "4 minutes" rfl
    (Or.inr ⟨⟨240000, 1⟩, by decide, by norm_num [MsValue.toRat]⟩) none true "win32"

/-- Claim C6: when both `user` and `repo` are omitted and no repository
reference can be derived from the application's package descriptor,
`setup` fails with the `repo is required` assertion — an `Except.error`
before any scheduling. -/
theorem claim6_missing_repo_rejected
    (opts : Option IUpdateOptions)
    (hu : (opts.bind fun o => o.user) = none)
    (hr : (opts.bind fun o => o.repo) = none)
    (isPackaged : Bool) (platform : String) :
    setup opts none isPackaged platform = Except.error "repo is required" := by
  unfold setup validateInput guessRepo
  rw [hr, hu]
  simp [jsOrStr]

/-- Witness for C6: `setup()` with no options in an app whose
`package.json` yields no repository reference. -/
theorem claim6_missing_repo_rejected_witness :
    setup none none true "win32" = Except.error "repo is required" :=
  claim6_missing_repo_rejected none rfl rfl true "win32"

/-- The specification's selectability predicate for C7, reading its
"exactly one installable artifact matching the running platform" clause
literally (asset predicate: `.nupkg` suffix on `win32`, `"darwin"`
substring on `darwin`). -/
def claimSelectable (platform : String) (r : IRelease) : Bool :=
  semverValid r.tag_name && r.draft == 0 && r.prerelease == 0 &&
    ((r.assets.filter fun a =>
      if platform = "win32" then trailsWith ".nupkg".data a.name.data
      else if platform = "darwin" then containsSeq "darwin".data a.name.data
      else false).length == 1)

/-- Claim C7 (counterexample): a non-draft, non-prerelease release `1.0.0`
carrying **two** matching `.nupkg` assets has no "exactly one" matching
artifact, so the claim says it is skipped — but the code's
`assets.some(...)` test accepts it and the scan selects it. -/
theorem claim7_counterexample :
    claimSelectable "win32"
        ⟨0, 0, "1.0.0", [⟨"app-a.nupkg", "ua"⟩, ⟨"app-b.nupkg", "ub"⟩]⟩ = false
    ∧ eligibleRelease "win32"
        ⟨0, 0, "1.0.0", [⟨"app-a.nupkg", "ua"⟩, ⟨"app-b.nupkg", "ub"⟩]⟩ = true
    ∧ selectRelease "win32"
        [⟨0, 0, "1.0.0", [⟨"app-a.nupkg", "ua"⟩, ⟨"app-b.nupkg", "ub"⟩]⟩] =
      some ⟨0, 0, "1.0.0", [⟨"app-a.nupkg", "ua"⟩, ⟨"app-b.nupkg", "ub"⟩]⟩ := by
  decide

/-- Claim C7 (amended): a release record is selectable if and only if its
tag parses as a well-formed semantic version, it is not flagged draft, it
is not flagged prerelease, and it has **at least one** asset matching the
running platform's name predicate (`.nupkg` suffix on `win32`, `"darwin"`
substring on `darwin`). -/
theorem claim7_amended_at_least_one_matching_asset (r : IRelease) :
    (eligibleRelease "win32" r = true ↔
      (semverValid r.tag_name = true ∧ r.draft = 0 ∧ r.prerelease = 0 ∧
        ∃ a ∈ r.assets, trailsWith ".nupkg".data a.name.data = true))
    ∧ (eligibleRelease "darwin" r = true ↔
      (semverValid r.tag_name = true ∧ r.draft = 0 ∧ r.prerelease = 0 ∧
        ∃ a ∈ r.assets, containsSeq "darwin".data a.name.data = true)) := by
  have hw : containsSeq "win32".data "win32".data = true := by decide
  have hd1 : containsSeq "win32".data "darwin".data = false := by decide
  have hd2 : containsSeq "darwin".data "darwin".data = true := by decide
  refine ⟨?_, ?_⟩ <;>
    · simp [eligibleRelease, isAssetAvailable, hw, hd1, hd2, List.any_eq_true,
        Bool.and_eq_true, beq_iff_eq]
      tauto

/-- Claim C8: with `notifyBeforeApply` and `notifyBeforeDownload` omitted
from the options, validation resolves both to `true`; consequently
`initUpdater` registers the `update-downloaded` handler, a cycle that
finds a newer version presents the download consent prompt, and a
downloaded update always presents the restart consent prompt. -/
theorem claim8_notify_defaults_true
    (opts : IUpdateOptions)
    (hA : opts.notifyBeforeApply = none) (hD : opts.notifyBeforeDownload = none)
    (pkgRepo : RepoRef) (r : ResolvedOptions)
    (hok : validateInput (some opts) pkgRepo = .ok r) :
    r.notifyBeforeApply = true ∧ r.notifyBeforeDownload = true
    ∧ registersOnUpdateDownloaded r = true
    ∧ (∀ (env : Env) (st : UpdaterState) (feed : FeedResult) (resp : Nat)
        (st' : UpdaterState) (acts : List Action),
        env.notifyBeforeDownload = r.notifyBeforeDownload →
        st.pauseUpdates = false →
        checkVersionDelta env st feed = .value st' acts false →
        Action.showDownloadPrompt st'.fetchedVersion ∈
          (checkForUpdates env st feed resp).actions)
    ∧ (∀ (platform releaseNotes releaseName : String) (resp : Nat),
        Action.showRestartPrompt
            (if platform = "win32" then releaseNotes else releaseName) ∈
          onUpdateDownloaded platform releaseNotes releaseName resp) := by
  unfold validateInput at hok
  dsimp only at hok
  split_ifs at hok with h1 h2 h3
  cases hok
  refine ⟨?_, ?_, ?_, ?_, ?_⟩
  · simp [hA]
  · simp [hD]
  · simp [registersOnUpdateDownloaded, hA]
  · intro env st feed resp st' acts hnd hpz hdel
    have hndT : env.notifyBeforeDownload = true := by
      rw [hnd]
      simp [hD]
    rw [checkForUpdates, if_neg (by simp [hpz]), hdel]
    by_cases hr0 : resp = 0 <;> simp [hndT, promptDownload, hr0]
  · intro platform notes name resp
    simp [onUpdateDownloaded]

/-- Witness for C8: options carrying only `user`/`repo` (notify flags
omitted) validate to a configuration with both notify flags `true`. -/
theorem claim8_notify_defaults_true_witness :
    (⟨"owner", "repo", "10 minutes", true, true⟩ : ResolvedOptions).notifyBeforeApply = true
    ∧ (⟨"owner", "repo", "10 minutes", true, true⟩ : ResolvedOptions).notifyBeforeDownload = true
    ∧ registersOnUpdateDownloaded ⟨"owner", "repo", "10 minutes", true, true⟩ = true
    ∧ (∀ (env : Env) (st : UpdaterState) (feed : FeedResult) (resp : Nat)
        (st' : UpdaterState) (acts : List Action),
        env.notifyBeforeDownload =
          (⟨"owner", "repo", "10 minutes", true, true⟩ : ResolvedOptions).notifyBeforeDownload →
        st.pauseUpdates = false →
        checkVersionDelta env st feed = .value st' acts false →
        Action.showDownloadPrompt st'.fetchedVersion ∈
          (checkForUpdates env st feed resp).actions)
    ∧ (∀ (platform releaseNotes releaseName : String) (resp : Nat),
        Action.showRestartPrompt
            (if platform = "win32" then releaseNotes else releaseName) ∈
          onUpdateDownloaded platform releaseNotes releaseName resp) :=
  claim8_notify_defaults_true ⟨some "owner", some "repo", none, none, none⟩ rfl rfl
    ⟨"", ""⟩ ⟨"owner", "repo", "10 minutes", true, true⟩ (by rfl)
